import Mathlib

/-!
Verification of the extraction pipeline in `app.py` (pdfExtractor).

The program is a thin sequential pipeline:
upload → extract raw text/tables → format a prompt → call remote API →
strip markdown fences → parse JSON → render.

We shallowly embed each stage as a Lean function mirroring the Python source:
* `extract_text_and_tables` (app.py lines 18–33): flattening of per-page text
  and tables. A PDF, as seen through `pdfplumber`, is modelled as a list of
  pages, each carrying its extracted text (`Option String`, `none` standing
  for Python's `None`) and its detected tables (rows of optional cell strings).
* the upload-processing loop (app.py lines 129–139), with the temporary-file
  bookkeeping made explicit;
* `create_prompt` (app.py lines 35–101);
* `query_gemini` (app.py lines 104–117), on an explicit HTTP-response value;
* `parse_json_response` (app.py lines 119–126), over an executable embedding
  of `re.sub(r"```json|```", ...)`, `str.strip()` and `json.loads`.
-/

namespace PdfExtractor

/-- A detected table: rows of cells; a cell may be `None` in pdfplumber. -/
abbrev Table := List (List (Option String))

/-- A page as produced by pdfplumber: `page.extract_text()` returns a string
or `None`; `page.extract_tables()` returns a list of tables. -/
structure Page where
  text : Option String
  tables : List Table

/-- Join a list of strings (plain concatenation, no separator). -/
def strJoin : List String → String
  | [] => ""
  | s :: rest => s ++ strJoin rest

/-- `text if text else '[No text found]'` (app.py line 24): Python truthiness
sends both `None` and the empty string to the placeholder. -/
def pageTextBody : Option String → String
  | some s => if s = "" then "[No text found]" else s
  | none => "[No text found]"

/-- `cell if cell else ""` (app.py line 30): `None` and the empty string both
render as the empty string. -/
def renderCell : Option String → String
  | some s => if s = "" then "" else s
  | none => ""

/-- `" | ".join(cell if cell else "" for cell in row)` (app.py line 30). -/
def renderRow (row : List (Option String)) : String :=
  String.intercalate " | " (row.map renderCell)

/-- The inner row loop (app.py lines 29–31): each row followed by a newline. -/
def rowsText : Table → String
  | [] => ""
  | row :: rest => renderRow row ++ "\n" ++ rowsText rest

/-- The table loop of one page (app.py lines 27–32), at 0-based table index
`tIdx`; `pnum` is the 1-based page number. -/
def tablesTextAux (pnum : Nat) : Nat → List Table → String
  | _, [] => ""
  | tIdx, tbl :: rest =>
      "\n--- Page " ++ toString pnum ++ " Table " ++ toString (tIdx + 1) ++ " ---\n"
        ++ rowsText tbl ++ tablesTextAux pnum (tIdx + 1) rest

/-- The page loop of `extract_text_and_tables` (app.py lines 22–32), starting
at 0-based page index `pIdx`; returns the flattened text and the accumulated
raw tables, in page order. The `if tables:` guard of line 26 is kept. -/
def extractAux : Nat → List Page → String × List Table
  | _, [] => ("", [])
  | pIdx, p :: rest =>
      let pagePart :=
        "\n--- Page " ++ toString (pIdx + 1) ++ " Text ---\n" ++ pageTextBody p.text
          ++ (if p.tables = [] then "" else tablesTextAux (pIdx + 1) 0 p.tables)
      let r := extractAux (pIdx + 1) rest
      (pagePart ++ r.1, p.tables ++ r.2)

/-- `extract_text_and_tables` (app.py lines 18–33), with the pdfplumber view
of the document (its pages) as input. -/
def extract_text_and_tables (pages : List Page) : String × List Table :=
  extractAux 0 pages

/-- The full flattened section contributed by the page at 0-based index `i`:
page-text header and body, then the page's table blocks. -/
def pageSection (i : Nat) (p : Page) : String :=
  "\n--- Page " ++ toString (i + 1) ++ " Text ---\n" ++ pageTextBody p.text
    ++ (if p.tables = [] then "" else tablesTextAux (i + 1) 0 p.tables)

/-- One run of the upload-processing loop (app.py lines 133–139).

Each uploaded file is modelled by the outcome of its `pdfplumber` read:
`Except.ok (text, tables)` when `extract_text_and_tables` succeeds on it,
`Except.error e` when the library raises.  The loop writes each upload to a
fresh `tempfile.NamedTemporaryFile(delete=False)` (modelled by recording the
file's index in `tmpCreated`); nothing in the source ever deletes a temporary
file, which the explicit `tmpDeleted` field makes visible.  An exception from
a read propagates (there is no try/except in the loop), aborting the run:
the combined text accumulated so far is discarded with the run's locals. -/
structure UploadRun where
  result : Except String (String × List Table)
  tmpCreated : List Nat
  tmpDeleted : List Nat

/-- The loop body, file by file: `all_text += text_content + "\n\n"` and
`all_tables_combined.extend(table_data)` (app.py lines 138–139). -/
def processUploadsAux : Nat → String → List Table →
    List (Except String (String × List Table)) → UploadRun
  | _, accText, accTabs, [] =>
      { result := .ok (accText, accTabs), tmpCreated := [], tmpDeleted := [] }
  | i, accText, accTabs, f :: rest =>
      match f with
      | .error e =>
          { result := .error e, tmpCreated := [i], tmpDeleted := [] }
      | .ok (t, tabs) =>
          let r := processUploadsAux (i + 1) (accText ++ t ++ "\n\n") (accTabs ++ tabs) rest
          { result := r.result, tmpCreated := i :: r.tmpCreated, tmpDeleted := r.tmpDeleted }

/-- The upload-processing loop (app.py lines 129–139) over the uploaded
files' read outcomes. -/
def processUploads (files : List (Except String (String × List Table))) : UploadRun :=
  processUploadsAux 0 "" [] files

/-! ### Fence stripping (app.py line 120)

`re.sub(r"```json|```", "", result)` scans left to right and deletes every
non-overlapping match, trying the alternative "```json" before "```" at each
position.  `removeFencesL` mirrors that exactly on the character list. -/

/-- The backtick character (U+0060). -/
def bq : Char := '`'

def removeFencesL : List Char → List Char
  | '`' :: '`' :: '`' :: 'j' :: 's' :: 'o' :: 'n' :: rest => removeFencesL rest
  | '`' :: '`' :: '`' :: rest => removeFencesL rest
  | c :: rest => c :: removeFencesL rest
  | [] => []

/-- Does the list start with one backtick? -/
def bt1 : List Char → Bool
  | [] => false
  | c :: _ => c = bq

/-- Does the list start with two backticks? -/
def bt2 : List Char → Bool
  | [] => false
  | c :: l => c = bq && bt1 l

/-- Does the list start with three backticks, i.e. with a fence marker? -/
def bt3 : List Char → Bool
  | [] => false
  | c :: l => c = bq && bt2 l

/-- Does the list contain three consecutive backticks anywhere?  Both regex
alternatives of app.py line 120 begin with three backticks, so this is
exactly "contains a code-fence marker". -/
def hasFence : List Char → Bool
  | [] => false
  | c :: rest => bt3 (c :: rest) || hasFence rest

/-- Python `str.strip()` whitespace (restricted to its ASCII part; the
inputs relevant here are ASCII). -/
def isPyWs (c : Char) : Bool :=
  c == ' ' || c == '\t' || c == '\n' || c == '\r' || c == Char.ofNat 11 || c == Char.ofNat 12

/-- `str.strip()` (app.py line 120): drop whitespace from both ends. -/
def pyStrip (l : List Char) : List Char :=
  ((l.dropWhile isPyWs).reverse.dropWhile isPyWs).reverse

/-! ### JSON values and `json.loads` (app.py lines 4, 122)

The standard-library `json` module is external code with a precisely
specified behaviour; we embed it executably.  Modelling notes:
* a number literal is represented exactly, as `m * 10 ^ e` in the normal
  form produced by `mkNum` (`m` not a multiple of ten, or `m = e = 0`);
  Python parses number literals into `int`/`float`, whose `==` identifies
  `1` with `1.0` and `1.5e2` with `150` just as the exact representation
  does (extreme `float` rounding aside);
* Python's `json.loads` accepts the non-standard literals `NaN`,
  `Infinity` and `-Infinity`; they get their own constructors;
* objects are built with CPython `dict` semantics: a repeated key keeps its
  first position and takes its last value (`dictInsert` below);
* strings are Unicode-scalar sequences (Lean `Char`); lone surrogate
  escapes, which CPython tolerates, are not representable and are rejected.
-/

inductive Json where
  | null
  | bool (b : Bool)
  | num (m : Int) (e : Int)
  | str (s : String)
  | arr (items : List Json)
  | obj (fields : List (String × Json))
  | nan
  | inf
  | neginf

/-- Strip factors of ten from the mantissa into the exponent; the fuel is
an upper bound on the strippable factors, so the result is independent of
any sufficiently large fuel. -/
def normNumAux : Nat → Int → Int → Int × Int
  | 0, m, e => (m, e)
  | fuel + 1, m, e =>
      if m ≠ 0 ∧ m % 10 = 0 then normNumAux fuel (m / 10) (e + 1) else (m, e)

/-- The number `m * 10 ^ e` in normal form: zero is `num 0 0`; otherwise
the mantissa is not a multiple of ten.  Distinct normal forms denote
distinct values, so equality of `Json.num` nodes is equality of the
numeric values, matching Python's `==` on parsed numbers. -/
def mkNum (m e : Int) : Json :=
  if m = 0 then .num 0 0
  else
    let p := normNumAux m.natAbs m e
    .num p.1 p.2

/-- The whitespace `json.loads` skips between tokens. -/
def isJsonWs (c : Char) : Bool :=
  c == ' ' || c == '\t' || c == '\n' || c == '\r'

def skipWs (l : List Char) : List Char := l.dropWhile isJsonWs

/-- Value of one hexadecimal digit. -/
def hexVal (c : Char) : Option Nat :=
  if '0' ≤ c ∧ c ≤ '9' then some (c.toNat - 48)
  else if 'a' ≤ c ∧ c ≤ 'f' then some (c.toNat - 87)
  else if 'A' ≤ c ∧ c ≤ 'F' then some (c.toNat - 55)
  else none

def parseHex4 (h1 h2 h3 h4 : Char) : Option Nat :=
  match hexVal h1, hexVal h2, hexVal h3, hexVal h4 with
  | some a, some b, some c, some d => some (a * 4096 + b * 256 + c * 16 + d)
  | _, _, _, _ => none

/-- The single-character escapes of JSON (`\uXXXX` is handled
separately). -/
def simpleEscape (e : Char) : Option Char :=
  if e = '"' then some '"'
  else if e = '\\' then some '\\'
  else if e = '/' then some '/'
  else if e = 'b' then some (Char.ofNat 8)
  else if e = 'f' then some (Char.ofNat 12)
  else if e = 'n' then some '\n'
  else if e = 'r' then some (Char.ofNat 13)
  else if e = 't' then some '\t'
  else none

/-- A `\uXXXX` escape that must be a low surrogate completing the high
surrogate `n`; CPython pairs them into one code point. -/
def parseLowSurrogate (n : Nat) : List Char → Option (Char × List Char)
  | '\\' :: 'u' :: g1 :: g2 :: g3 :: g4 :: r2 =>
    (match parseHex4 g1 g2 g3 g4 with
     | some m =>
       if 0xDC00 ≤ m ∧ m ≤ 0xDFFF then
         some (Char.ofNat (0x10000 + (n - 0xD800) * 0x400 + (m - 0xDC00)), r2)
       else none
     | none => none)
  | _ => none

/-- Decode the `XXXX...` part after `\u`: four hex digits, plus a paired
low surrogate when the first four name a high surrogate. -/
def parseUnicodeEscape : List Char → Option (Char × List Char)
  | h1 :: h2 :: h3 :: h4 :: r' =>
    (match parseHex4 h1 h2 h3 h4 with
     | some n =>
       if n < 0xD800 ∨ 0xDFFF < n then some (Char.ofNat n, r')
       else if n < 0xDC00 then parseLowSurrogate n r'
       else none
     | none => none)
  | _ => none

/-- Body of a JSON string literal, after the opening quote: returns the
decoded characters and the input after the closing quote.  Handles the JSON
escapes, `\uXXXX` (with surrogate pairs), and rejects raw control
characters (`json.loads` is strict by default).  The fuel only bounds
recursion depth: every step consumes at least one input character, so
`input length + 1` fuel can never run out. -/
def parseStringBody : Nat → List Char → Option (List Char × List Char)
  | 0, _ => none
  | _ + 1, [] => none
  | fuel + 1, c :: rest =>
    if c = '"' then some ([], rest)
    else if c = '\\' then
      match rest with
      | [] => none
      | e :: r =>
        if e = 'u' then
          match parseUnicodeEscape r with
          | some dr => (parseStringBody fuel dr.2).map (fun p => (dr.1 :: p.1, p.2))
          | none => none
        else
          match simpleEscape e with
          | some d => (parseStringBody fuel r).map (fun p => (d :: p.1, p.2))
          | none => none
    else if c.toNat < 32 then none
    else (parseStringBody fuel rest).map (fun p => (c :: p.1, p.2))

def spanDigits (l : List Char) : List Char × List Char :=
  l.span (fun c => '0' ≤ c && c ≤ '9')

def digitsToNat (ds : List Char) : Nat :=
  ds.foldl (fun acc c => acc * 10 + (c.toNat - 48)) 0

/-- Fraction and exponent of a JSON number, applied to the integer part.
Mirrors the number grammar of `json.loads`: `(\.\d+)? ([eE][-+]?\d+)?`;
a dot or exponent letter not followed by a digit is not consumed. -/
def parseNumTail (neg : Bool) (ip : Nat) (l : List Char) : Json × List Char :=
  let fr : List Char × List Char :=
    match l with
    | '.' :: r =>
        let d := spanDigits r
        if d.1 = [] then ([], l) else (d.1, d.2)
    | _ => ([], l)
  let ex : Int × List Char :=
    match fr.2 with
    | 'e' :: r => parseExp r fr.2
    | 'E' :: r => parseExp r fr.2
    | _ => (0, fr.2)
  let m : Int :=
    (if neg then -1 else 1) * ((ip : Int) * (10 : Int) ^ fr.1.length + (digitsToNat fr.1 : Int))
  (mkNum m (ex.1 - (fr.1.length : Int)), ex.2)
where
  /-- Exponent after the `e`: optional sign then digits; `orig` is restored
  when no digit follows. -/
  parseExp (r orig : List Char) : Int × List Char :=
    match r with
    | '+' :: r2 =>
        let d := spanDigits r2
        if d.1 = [] then (0, orig) else ((digitsToNat d.1 : Int), d.2)
    | '-' :: r2 =>
        let d := spanDigits r2
        if d.1 = [] then (0, orig) else (-(digitsToNat d.1 : Int), d.2)
    | _ =>
        let d := spanDigits r
        if d.1 = [] then (0, orig) else ((digitsToNat d.1 : Int), d.2)

/-- JSON number: `-? (0 | [1-9][0-9]*) frac? exp?`. -/
def parseNumber (l : List Char) : Option (Json × List Char) :=
  let sg : Bool × List Char :=
    match l with
    | '-' :: r => (true, r)
    | _ => (false, l)
  match sg.2 with
  | '0' :: r => some (parseNumTail sg.1 0 r)
  | c :: r =>
      if '1' ≤ c ∧ c ≤ '9' then
        let d := spanDigits r
        some (parseNumTail sg.1 (digitsToNat (c :: d.1)) d.2)
      else none
  | [] => none

/-- CPython `dict` insertion: a repeated key keeps its original position and
takes the new value; a new key is appended. -/
def dictInsert : List (String × Json) → String × Json → List (String × Json)
  | [], p => [p]
  | (k', v') :: rest, (k, v) =>
      if k' = k then (k', v) :: rest else (k', v') :: dictInsert rest (k, v)

/-- Build a `dict` from the parsed members, in order. -/
def dictBuild (ps : List (String × Json)) : List (String × Json) :=
  ps.foldl dictInsert []

/-- The recursive-descent parsers of `json.loads`, bundled so that the
recursion is plain structural recursion on the fuel (which only bounds
recursion depth; `loads` supplies more fuel than any input can consume). -/
structure Parsers where
  value : List Char → Option (Json × List Char)
  objRest : List Char → Option (Json × List Char)
  arrRest : List Char → Option (Json × List Char)
  members : List Char → Option (List (String × Json) × List Char)
  items : List Char → Option (List Json × List Char)

/-- The parser bundle with recursion depth `fuel`.  Each function of level
`fuel + 1` delegates nested work to the bundle of level `fuel`. -/
def parsersAt : Nat → Parsers
  | 0 =>
    { value := fun _ => none, objRest := fun _ => none, arrRest := fun _ => none,
      members := fun _ => none, items := fun _ => none }
  | fuel + 1 =>
    let P := parsersAt fuel
    { -- one JSON value, leading whitespace already skipped
      value := fun l =>
        match l with
        | '{' :: rest => P.objRest rest
        | '[' :: rest => P.arrRest rest
        | '"' :: rest =>
            match parseStringBody (rest.length + 1) rest with
            | some p => some (.str (String.mk p.1), p.2)
            | none => none
        | 't' :: 'r' :: 'u' :: 'e' :: rest => some (.bool true, rest)
        | 'f' :: 'a' :: 'l' :: 's' :: 'e' :: rest => some (.bool false, rest)
        | 'n' :: 'u' :: 'l' :: 'l' :: rest => some (.null, rest)
        | 'N' :: 'a' :: 'N' :: rest => some (.nan, rest)
        | 'I' :: 'n' :: 'f' :: 'i' :: 'n' :: 'i' :: 't' :: 'y' :: rest => some (.inf, rest)
        | '-' :: 'I' :: 'n' :: 'f' :: 'i' :: 'n' :: 'i' :: 't' :: 'y' :: rest =>
            some (.neginf, rest)
        | l' => parseNumber l',
      -- the inside of an object, after the `{`
      objRest := fun l =>
        match skipWs l with
        | '}' :: r => some (.obj [], r)
        | l' =>
            match P.members l' with
            | some p => some (.obj (dictBuild p.1), p.2)
            | none => none,
      -- the inside of an array, after the `[`
      arrRest := fun l =>
        match skipWs l with
        | ']' :: r => some (.arr [], r)
        | l' =>
            match P.items l' with
            | some p => some (.arr p.1, p.2)
            | none => none,
      -- one or more `"key": value` members up to the closing `}`
      members := fun l =>
        match l with
        | '"' :: rest =>
          match parseStringBody (rest.length + 1) rest with
          | some kp =>
            match skipWs kp.2 with
            | ':' :: r3 =>
              match P.value (skipWs r3) with
              | some vp =>
                match skipWs vp.2 with
                | ',' :: r6 =>
                    match P.members (skipWs r6) with
                    | some mp => some ((String.mk kp.1, vp.1) :: mp.1, mp.2)
                    | none => none
                | '}' :: r6 => some ([(String.mk kp.1, vp.1)], r6)
                | _ => none
              | none => none
            | _ => none
          | none => none
        | _ => none,
      -- one or more array items up to the closing `]`
      items := fun l =>
        match P.value l with
        | some vp =>
          match skipWs vp.2 with
          | ',' :: r2 =>
              match P.items (skipWs r2) with
              | some ip => some (vp.1 :: ip.1, ip.2)
              | none => none
          | ']' :: r2 => some ([vp.1], r2)
          | _ => none
        | none => none }

/-- One JSON value at recursion depth `fuel`. -/
def parseValue (fuel : Nat) (l : List Char) : Option (Json × List Char) :=
  (parsersAt fuel).value l

/-- `json.loads` (app.py line 122): parse one value, allowing surrounding
whitespace and nothing else ("Extra data" otherwise). -/
def loads (l : List Char) : Option Json :=
  match parseValue (l.length + 1) (skipWs l) with
  | some p => if skipWs p.2 = [] then some p.1 else none
  | none => none

/-- `parse_json_response` (app.py lines 119–126): global fence removal,
`strip()`, then `json.loads`.  A decode failure is reported to the operator
(`st.error("JSON parse error")`, `st.text(result)` — the raw input) and
`None` is returned; the embedding carries the displayed messages in the
error branch. -/
def parse_json_response (result : String) : Except (List String) Json :=
  let cleaned : List Char := pyStrip (removeFencesL result.data)
  match loads cleaned with
  | some v => .ok v
  | none => .error ["JSON parse error", result]

/-! ### JSON serialization of a string-to-string mapping

The spec's `json_string_of(mapping)`: Python `json.dumps` on a `dict` of
strings, with the default separators `", "` and `": "`.  Non-ASCII code
points are emitted literally rather than `\uXXXX`-escaped
(`ensure_ascii=False` style) — both forms are valid JSON, parse to the same
value, and the difference cannot touch any claim here since the backtick
and every structural character are ASCII. -/

/-- Lower-case hexadecimal digit (as `json.dumps` emits). -/
def hexCharOf (n : Nat) : Char :=
  if n < 10 then Char.ofNat (48 + n)
  else if n < 16 then Char.ofNat (87 + n)
  else '0'

/-- Serialize one character of a JSON string: escape the quote, the
backslash and control characters, pass everything else through. -/
def escapeChar (c : Char) : List Char :=
  if c = '"' then ['\\', '"']
  else if c = '\\' then ['\\', '\\']
  else if c.toNat < 32 then
    ['\\', 'u', '0', '0', hexCharOf (c.toNat / 16), hexCharOf (c.toNat % 16)]
  else [c]

def escStr : List Char → List Char
  | [] => []
  | c :: rest => escapeChar c ++ escStr rest

/-- A JSON string literal: quoted, escaped body. -/
def strLit (s : String) : List Char := '"' :: (escStr s.data ++ ['"'])

/-- Everything after the opening `{`: the `"k": "v"` members joined by
`", "`, then the closing `}`. -/
def serBody : List (String × String) → List Char
  | [] => ['}']
  | (k, v) :: ms =>
      strLit k ++ ':' :: ' ' :: strLit v ++
        (match ms with
         | [] => ['}']
         | _ :: _ => ',' :: ' ' :: serBody ms)

/-- `json.dumps` of a string-to-string mapping (see the section comment). -/
def serializeStringMap (m : List (String × String)) : String :=
  String.mk ('{' :: serBody m)

/-! ### `query_gemini` (app.py lines 104–117)

The single `requests.post` is modelled by its observed response: `ok`,
`status_code` and body `text`.  The envelope access
`response.json()["candidates"][0]["content"]["parts"][0]["text"]` is
embedded step by step; the exception text carried on a failed step models
the corresponding Python exception message.  The function issues exactly
one request — the embedding consumes exactly one response value — and
never retries. -/

structure HttpResponse where
  ok : Bool
  status_code : Nat
  text : String

def lookupField : List (String × Json) → String → Option Json
  | [], _ => none
  | (k', v) :: rest, k => if k' = k then some v else lookupField rest k

/-- Python `j[k]` for a string key `k`: only a `dict` succeeds. -/
def jGet (j : Json) (k : String) : Except String Json :=
  match j with
  | .obj fields =>
      match lookupField fields k with
      | some v => .ok v
      | none => .error ("KeyError: " ++ k)
  | _ => .error ("TypeError: indices must be integers, not str: " ++ k)

/-- Python `j[i]` for an integer index: a list indexes, a string yields a
one-character string, a `dict` raises `KeyError`, the rest `TypeError`. -/
def jIdx (j : Json) (i : Nat) : Except String Json :=
  match j with
  | .arr xs =>
      match xs.get? i with
      | some v => .ok v
      | none => .error "IndexError: list index out of range"
  | .str s =>
      match s.data.get? i with
      | some c => .ok (.str (String.mk [c]))
      | none => .error "IndexError: string index out of range"
  | .obj _ => .error ("KeyError: " ++ toString i)
  | _ => .error "TypeError: object is not subscriptable"

/-- `response.json()` then the nested envelope access of app.py line 111;
the first failing step's exception is the one reported. -/
def envelopeOf (body : String) : Except String Json :=
  match loads body.data with
  | none => .error "Expecting value: line 1 column 1 (char 0)"
  | some j => do
      let c ← jGet j "candidates"
      let c0 ← jIdx c 0
      let ct ← jGet c0 "content"
      let ps ← jGet ct "parts"
      let p0 ← jIdx ps 0
      jGet p0 "text"

/-- `query_gemini` (app.py lines 104–117): on a non-success response report
the status code and the body and return `None`; on a success response
extract the envelope, reporting the exception and returning `None` if it
fails.  The second component collects the messages displayed via
`st.error`/`st.text`, in order. -/
def query_gemini (resp : HttpResponse) : Option Json × List String :=
  if resp.ok then
    match envelopeOf resp.text with
    | .ok v => (some v, [])
    | .error e => (none, ["Parsing Gemini response failed: " ++ e])
  else
    (none, ["Gemini API Error: " ++ toString resp.status_code, resp.text])

/-! ### `create_prompt` (app.py lines 35–101)

The f-string template, transcribed verbatim; `{text_content}` splits it
into a prefix and a suffix.  Literal braces (written `{{`/`}}` in the
Python source) appear here as the escapes `\x7b`/`\x7d`. -/

/-- The 26 field names declared by the template's JSON schema block
(app.py lines 42–67), in order. -/
def fieldNames : List String :=
  ["reviewer", "reviewee", "analyst", "analystMail", "analystPhone",
   "rating", "current_price", "target_price", "previous_target", "comments",
   "revenueFY24E", "ebitdaFY24E", "ebitdaMarginFY24E", "patFY24E",
   "revenueFY25E", "ebitdaFY25E", "ebitdaMarginFY25E", "patFY25E",
   "revenue3QFY24", "ebitda3QFY24", "ebitda3QFY24yoy", "ebitda3QFY24qoq",
   "ebitdaMargin3QFY24", "pat3QFY24", "pat3QFY24yoy", "pat3QFY24qoq"]

/-- The schema entries of the template (app.py lines 42–67), one
`"name": ""` per field, separated by `,` and the two-space indentation of
the following line. -/
def schemaEntries : List String → String
  | [] => ""
  | [n] => "\"" ++ n ++ "\": \"\""
  | n :: rest => "\"" ++ n ++ "\": \"\",\n  " ++ schemaEntries rest

/-- The template text before the schema entries. -/
def promptHead : String :=
  "\n" ++
  "You are a financial data extractor.\n" ++
  "\n" ++
  "From the content below, extract and return this JSON object:\n" ++
  "\n" ++
  "\x7b\n  "

/-- The template text between the schema entries and `{text_content}`. -/
def promptTail : String :=
  "\n\x7d\n" ++
  "\n" ++
  "Accept label variations such as:\n" ++
  "- Give the name of the company that has produced or written this review under the key \"reviewer\"\n" ++
  "- Give the name of the company about which this report is written about under the key \"reviewee\"\n" ++
  "- Give the full name of the analyst that written the report under the key \"analyst\". In case of multiple analysts, give only the first person.\n" ++
  "- Give the email of the analyst under the key \"analystMail\". Include all special characters.\n" ++
  "- Give the phone number of the analyst under the key \"analystPhone\". Include '+' and space in place of '-'.\n" ++
  "- Extract stock rating terms like: buy, sell, hold, add, reduce, overweight, neutral under \"rating\"\n" ++
  "- \"CMP\",\"Price Now\",\"Current Market Price\" → current_price\n" ++
  "- \"TP\",\"Target\",\"Target Price\" → target_price\n" ++
  "- \"Previous TP\",\"PT\" → previous_target\n" ++
  "- If \"Retain/maintain rating\" → comments = \"Maintain Rating\". If changed, write as \"Rating changged to (new rating)\"\n" ++
  "\n" ++
  "Look for revenue/EBITDA/PAT values in tables with rows like:\n" ++
  "- Revenue, Sales → revenueFY24E, revenueFY25E, revenue3QFY24\n" ++
  "- EBITDA → ebitdaFY24E, ebitdaFY25E, ebitda3QFY24\n" ++
  "- PAT, Profit after tax → patFY24E, patFY25E, pat3QFY24\n" ++
  "- EBITDA margin, EBITDS margin % → ebitdaMarginFY24E, etc.\n" ++
  "- YoY/QoQ fields → like \"EBITDA YoY\", \"PAT QoQ\"\n" ++
  "\n" ++
  "Clean all values:\n" ++
  "- Only keep digits, negative signs, or decimal points\n" ++
  "- For example, \"-1.2 3%(7)\" → \"-1.23\"\n" ++
  "\n" ++
  "If value is in USD, convert it to INR (1 USD = 85.71) → then to billions\n" ++
  "\n" ++
  "Return **only a valid JSON object**. Do not explain. Do not wrap in code blocks.\n" ++
  "\n" ++
  "PDF Content:\n" ++
  "\"\"\"\n"

/-- The template text before `{text_content}`. -/
def promptPrefix : String :=
  promptHead ++ schemaEntries fieldNames ++ promptTail

/-- The template text after `{text_content}`. -/
def promptSuffix : String := "\n\"\"\"\n"

/-- `create_prompt` (app.py lines 35–101): the template with the flattened
text embedded verbatim. -/
def create_prompt (text_content : String) : String :=
  promptPrefix ++ text_content ++ promptSuffix

/-- `sub` occurs as a contiguous substring of `s`. -/
def containsStr (sub s : String) : Prop := sub.data <:+: s.data

/-- The number of positions of the list at which `pat` starts. -/
def countOccurList (pat : List Char) : List Char → Nat
  | [] => 0
  | c :: rest => (if pat.isPrefixOf (c :: rest) then 1 else 0) + countOccurList pat rest

/-! ## Document Reader: structure of the flattened text (claims C5, C6) -/

theorem rowsText_eq_join (t : Table) :
    rowsText t = strJoin (t.map fun row => renderRow row ++ "\n") := by
  induction t with
  | nil => rfl
  | cons row rest ih => simp [rowsText, strJoin, ih]

theorem tablesTextAux_eq_join (pnum : Nat) :
    ∀ (k : Nat) (ts : List Table),
      tablesTextAux pnum k ts
        = strJoin ((List.enumFrom k ts).map fun tp =>
            "\n--- Page " ++ toString pnum ++ " Table " ++ toString (tp.1 + 1) ++ " ---\n"
              ++ rowsText tp.2) := by
  intro k ts
  induction ts generalizing k with
  | nil => rfl
  | cons tbl rest ih => simp [tablesTextAux, List.enumFrom, strJoin, ih]

theorem tablesText_if_collapse (pnum : Nat) (ts : List Table) :
    (if ts = [] then "" else tablesTextAux pnum 0 ts) = tablesTextAux pnum 0 ts := by
  cases ts with
  | nil => rfl
  | cons t rest => simp [tablesTextAux]

theorem extractAux_fst (pages : List Page) :
    ∀ n : Nat,
      (extractAux n pages).1
        = strJoin ((List.enumFrom n pages).map fun ip => pageSection ip.1 ip.2) := by
  induction pages with
  | nil => intro n; rfl
  | cons p rest ih =>
      intro n
      simp only [extractAux, List.enumFrom, List.map_cons, strJoin, pageSection, ih (n + 1)]

theorem pageTextBody_placeholder (t : Option String) :
    (t = none ∨ t = some "" → pageTextBody t = "[No text found]") ∧ pageTextBody t ≠ "" := by
  cases t with
  | none => exact ⟨fun _ => rfl, by simp [pageTextBody]⟩
  | some s =>
      constructor
      · rintro (h | h)
        · cases h
        · cases h; rfl
      · by_cases hs : s = "" <;> simp [pageTextBody, hs]

/-- **C5.**  For any PDF with `N` pages, the flattened text returned by
`extract_text_and_tables` is exactly the concatenation, in ascending page
order, of one section per page, each opening with a header carrying the
1-based page number; the body of a page section is `[No text found]`
whenever the page yields no text (`None` or empty), and is never blank. -/
theorem C5_page_sections_in_order (pages : List Page) :
    ((extract_text_and_tables pages).1
        = strJoin (pages.enum.map fun ip =>
            "\n--- Page " ++ toString (ip.1 + 1) ++ " Text ---\n" ++ pageTextBody ip.2.text
              ++ (if ip.2.tables = [] then "" else tablesTextAux (ip.1 + 1) 0 ip.2.tables)))
    ∧ ∀ t : Option String,
        (t = none ∨ t = some "" → pageTextBody t = "[No text found]")
          ∧ pageTextBody t ≠ "" := by
  constructor
  · have h := extractAux_fst pages 0
    simpa [extract_text_and_tables, pageSection, List.enum] using h
  · exact pageTextBody_placeholder

/-- Witness for C5 at a concrete two-page document: a page with text and a
page without, in order, with the placeholder substituted on page 2. -/
theorem C5_witness :
    (extract_text_and_tables [⟨some "hello", []⟩, ⟨none, []⟩]).1
        = "\n--- Page 1 Text ---\nhello" ++ "\n--- Page 2 Text ---\n[No text found]"
      ∧ pageTextBody none = "[No text found]" := by
  have h := C5_page_sections_in_order [⟨some "hello", []⟩, ⟨none, []⟩]
  exact ⟨by rw [h.1]; rfl, (h.2 none).1 (Or.inl rfl)⟩

/-- **C6.**  For any page on which `K` tables are detected, the flattened
text carries, directly after that page's text section, `K` table sections
numbered `1..K`, each rendering every row as its cells joined by `" | "`,
with missing (`None`) and empty cells rendered as the empty string. -/
theorem C6_table_sections (pages : List Page) :
    ((extract_text_and_tables pages).1
        = strJoin (pages.enum.map fun ip =>
            "\n--- Page " ++ toString (ip.1 + 1) ++ " Text ---\n" ++ pageTextBody ip.2.text
              ++ strJoin (ip.2.tables.enum.map fun tp =>
                  "\n--- Page " ++ toString (ip.1 + 1) ++ " Table " ++ toString (tp.1 + 1)
                    ++ " ---\n"
                    ++ strJoin (tp.2.map fun row =>
                        String.intercalate " | " (row.map renderCell) ++ "\n"))))
    ∧ renderCell none = "" ∧ renderCell (some "") = ""
    ∧ ∀ s : String, s ≠ "" → renderCell (some s) = s := by
  refine ⟨?_, rfl, rfl, ?_⟩
  · have h := extractAux_fst pages 0
    have hfun : (fun ip : Nat × Page => pageSection ip.1 ip.2)
        = (fun ip : Nat × Page =>
            "\n--- Page " ++ toString (ip.1 + 1) ++ " Text ---\n" ++ pageTextBody ip.2.text
              ++ strJoin (ip.2.tables.enum.map fun tp =>
                  "\n--- Page " ++ toString (ip.1 + 1) ++ " Table " ++ toString (tp.1 + 1)
                    ++ " ---\n"
                    ++ strJoin (tp.2.map fun row =>
                        String.intercalate " | " (row.map renderCell) ++ "\n"))) := by
      funext ip
      rw [pageSection, tablesText_if_collapse, tablesTextAux_eq_join]
      simp [rowsText_eq_join, renderRow, List.enum]
    rw [extract_text_and_tables, h, List.enum, hfun]
    rfl
  · intro s hs
    simp [renderCell, hs]

/-- Witness for C6 at a one-page document with one two-row table holding a
missing cell and an empty cell. -/
theorem C6_witness :
    (extract_text_and_tables [⟨some "T", [[[some "a", none], [some "", some "b"]]]⟩]).1
        = "\n--- Page 1 Text ---\nT" ++ "\n--- Page 1 Table 1 ---\n" ++ "a | \n" ++ " | b\n"
      ∧ renderCell (some "x") = "x" := by
  have h := C6_table_sections [⟨some "T", [[[some "a", none], [some "", some "b"]]]⟩]
  exact ⟨by rw [h.1]; rfl, h.2.2.2 "x" (by decide)⟩

/-! ## Upload-processing loop (claims C3, C4) -/

theorem processUploadsAux_error (err : String)
    (post : List (Except String (String × List Table))) :
    ∀ pre : List (Except String (String × List Table)),
      (∀ f ∈ pre, ∃ v, f = .ok v) →
      ∀ (i : Nat) (acc : String) (accT : List Table),
        (processUploadsAux i acc accT (pre ++ .error err :: post)).result = .error err := by
  intro pre
  induction pre with
  | nil => intro _ i acc accT; rfl
  | cons f rest ih =>
      intro hpre i acc accT
      obtain ⟨v, hv⟩ := hpre f (List.mem_cons_self f rest)
      obtain ⟨t, tabs⟩ := v
      subst hv
      simp only [List.cons_append, processUploadsAux]
      exact ih (fun g hg => hpre g (List.mem_cons_of_mem _ hg)) _ _ _

/-- **C3** (amended).  A read failure on any uploaded file propagates out
of the upload-processing loop: whatever succeeded before it is discarded
with the run, the remaining files are not processed, and no combined text
is produced for that run. -/
theorem C3_read_failure_aborts_run (pre post : List (Except String (String × List Table)))
    (err : String) (hpre : ∀ f ∈ pre, ∃ v, f = .ok v) :
    (processUploads (pre ++ .error err :: post)).result = .error err :=
  processUploadsAux_error err post pre hpre 0 "" []

/-- Counterexample to C3 as stated: a successful first file contributes its
text when alone, but a failing second file makes the whole run fail — the
first file's contribution does not survive. -/
theorem C3_counterexample :
    (processUploads [.ok ("A", []), .error "cannot open PDF"]).result
        = .error "cannot open PDF"
      ∧ (processUploads [.ok ("A", [])]).result = .ok ("A\n\n", []) :=
  ⟨rfl, rfl⟩

/-- Witness for the amended C3 at a concrete three-file run. -/
theorem C3_witness :
    (processUploads [.ok ("A", []), .error "boom", .ok ("B", [])]).result = .error "boom" :=
  C3_read_failure_aborts_run [.ok ("A", [])] [.ok ("B", [])] "boom"
    (by
      intro f hf
      rw [List.mem_singleton] at hf
      exact ⟨("A", []), hf⟩)

theorem processUploadsAux_tmpDeleted
    (fs : List (Except String (String × List Table))) :
    ∀ (i : Nat) (acc : String) (accT : List Table),
      (processUploadsAux i acc accT fs).tmpDeleted = [] := by
  induction fs with
  | nil => intro i acc accT; rfl
  | cons f rest ih =>
      intro i acc accT
      cases f with
      | error e => rfl
      | ok v =>
          obtain ⟨t, tabs⟩ := v
          simp only [processUploadsAux, ih]

/-- **C4.**  The upload loop creates its temporary files with
`delete=False` and no code path ever deletes one: after any run, the set
of deleted temporary files is empty — in particular after a single
successfully-read upload, whose temporary file (index 0) still exists. -/
theorem C4_temp_file_never_deleted :
    (∀ files, (processUploads files).tmpDeleted = [])
      ∧ (processUploads [.ok ("x", [])]).tmpCreated = [0]
      ∧ (processUploads [.ok ("x", [])]).tmpDeleted = [] :=
  ⟨fun files => processUploadsAux_tmpDeleted files 0 "" [], rfl, rfl⟩

/-! ## Prompt Builder (claim C2) -/

theorem infix_extend_left (l a b : List Char) (h : l <:+: b) : l <:+: a ++ b := by
  obtain ⟨s, t, hst⟩ := h
  exact ⟨a ++ s, t, by rw [← hst]; simp⟩

theorem infix_extend_right (l a b : List Char) (h : l <:+: a) : l <:+: a ++ b := by
  obtain ⟨s, t, hst⟩ := h
  exact ⟨s, t ++ b, by rw [← hst]; simp⟩

theorem mem_infix_schemaEntries (name : String) :
    ∀ l : List String, name ∈ l → name.data <:+: (schemaEntries l).data := by
  intro l
  induction l with
  | nil => intro h; cases h
  | cons n rest ih =>
      intro hmem
      rcases List.mem_cons.mp hmem with heq | hmem'
      · subst heq
        cases rest with
        | nil =>
            exact ⟨"\"".data, "\": \"\"".data, by simp [schemaEntries, String.data_append]⟩
        | cons r rs =>
            exact ⟨"\"".data, ("\": \"\",\n  " ++ schemaEntries (r :: rs)).data,
              by simp [schemaEntries, String.data_append]⟩
      · cases rest with
        | nil => cases hmem'
        | cons r rs =>
            have h := ih hmem'
            have : (schemaEntries (n :: r :: rs)).data
                = ("\"" ++ n ++ "\": \"\",\n  ").data ++ (schemaEntries (r :: rs)).data := by
              simp [schemaEntries, String.data_append]
            rw [this]
            exact infix_extend_left _ _ _ h

/-- Counterexample to C2 as stated: the template's schema block declares
one field per entry of `fieldNames`, of which there are 26, not 23. -/
theorem C2_counterexample :
    fieldNames.length = 26 ∧ ¬ fieldNames.length = 23 := by
  constructor
  · decide
  · decide

/-- **C2** (amended).  The prompt template declares exactly 26 named
string fields, and for every input text the Prompt Builder's output
contains the input verbatim as a substring together with all 26 field
names. -/
theorem C2_prompt_text_and_fields (t : String) :
    fieldNames.length = 26
      ∧ containsStr t (create_prompt t)
      ∧ ∀ name ∈ fieldNames, containsStr name (create_prompt t) := by
  refine ⟨rfl, ?_, ?_⟩
  · exact ⟨promptPrefix.data, promptSuffix.data, by simp [create_prompt, String.data_append]⟩
  · intro name hname
    have h1 : name.data <:+: (schemaEntries fieldNames).data :=
      mem_infix_schemaEntries name fieldNames hname
    have h2 : (schemaEntries fieldNames).data <:+: promptPrefix.data :=
      ⟨promptHead.data, promptTail.data, by simp [promptPrefix, String.data_append]⟩
    have h3 : promptPrefix.data <:+: (create_prompt t).data :=
      ⟨[], t.data ++ promptSuffix.data, by simp [create_prompt, String.data_append]⟩
    exact (h1.trans h2).trans h3

/-- Witness for C2 at a concrete input text and field name. -/
theorem C2_witness :
    containsStr "Rating: Buy, CMP: 100" (create_prompt "Rating: Buy, CMP: 100")
      ∧ containsStr "rating" (create_prompt "Rating: Buy, CMP: 100") :=
  ⟨(C2_prompt_text_and_fields "Rating: Buy, CMP: 100").2.1,
   (C2_prompt_text_and_fields "Rating: Buy, CMP: 100").2.2 "rating" (by decide)⟩

/-! ## Response Parser: fence stripping is global (claim C1) -/

theorem bt1_false_of_head (c : Char) (l : List Char) (h : c ≠ bq) : bt1 (c :: l) = false := by
  simp [bt1, h]

theorem bt2_false_of_bt1_false (l : List Char) (h : bt1 l = false) : bt2 l = false := by
  cases l with
  | nil => rfl
  | cons c r =>
      simp [bt1] at h
      simp [bt2, h]

theorem bt2_true_shape (l : List Char) (h : bt2 l = true) : ∃ t, l = bq :: bq :: t := by
  cases l with
  | nil => cases h
  | cons c r =>
      cases r with
      | nil => simp [bt2, bt1] at h
      | cons c2 t =>
          simp [bt2, bt1] at h
          exact ⟨t, by rw [h.1, h.2]⟩

/-- The single-step equation of `removeFencesL` when no fence starts at the
head. -/
theorem removeFencesL_cons (c : Char) (rest : List Char) (h : bt3 (c :: rest) = false) :
    removeFencesL (c :: rest) = c :: removeFencesL rest := by
  rw [removeFencesL.eq_def]
  split
  · rename_i heq
    injection heq with h1 h2
    subst h1; subst h2
    simp [bt3, bt2, bt1, bq] at h
  · rename_i heq
    injection heq with h1 h2
    subst h1; subst h2
    simp [bt3, bt2, bt1, bq] at h
  · rename_i heq
    injection heq with h1 h2
    subst h1; subst h2
    rfl
  · rename_i heq
    exact List.noConfusion heq

theorem bt1_removeFencesL (l : List Char) (h : bt1 l = false) :
    bt1 (removeFencesL l) = false := by
  cases l with
  | nil => rfl
  | cons c r =>
      simp [bt1] at h
      rw [removeFencesL_cons c r (by simp [bt3, h])]
      simp [bt1, h]

theorem bt2_removeFencesL (l : List Char) (h : bt2 l = false) :
    bt2 (removeFencesL l) = false := by
  cases l with
  | nil => rfl
  | cons c r =>
      by_cases hc : c = bq
      · subst hc
        simp [bt2] at h
        rw [removeFencesL_cons bq r (by simp [bt3, bt2_false_of_bt1_false r h])]
        simp [bt2, bt1_removeFencesL r h]
      · rw [removeFencesL_cons c r (by simp [bt3, hc])]
        simp [bt2, hc]

/-- No fence marker survives in (or is created by) the output of the
fence-removal pass. -/
theorem hasFence_removeFencesL (l : List Char) : hasFence (removeFencesL l) = false := by
  induction l using removeFencesL.induct with
  | case1 rest ih => rw [removeFencesL]; exact ih
  | case2 rest hne ih =>
      rw [removeFencesL.eq_def]
      split
      · rename_i heq
        injection heq with _ h2
        injection h2 with _ h3
        injection h3 with _ h4
        exact (hne _ h4).elim
      · rename_i heq
        injection heq with _ h2
        injection h2 with _ h3
        injection h3 with _ h4
        subst h4
        exact ih
      · rename_i hcj hc3 heq
        injection heq with h1 h2
        exact (hc3 rest h1.symm h2.symm).elim
      · rename_i heq
        exact List.noConfusion heq
  | case3 c rest hne1 hne2 ih =>
      by_cases hb3 : bt3 (c :: rest) = true
      · exfalso
        simp [bt3] at hb3
        obtain ⟨t, ht⟩ := bt2_true_shape rest hb3.2
        exact hne2 t hb3.1 ht
      · rw [removeFencesL_cons c rest (by simpa using hb3)]
        rw [hasFence]
        refine Bool.or_eq_false_iff.mpr ⟨?_, ih⟩
        by_cases hc : c = bq
        · subst hc
          have hb2 : bt2 rest = false := by
            by_contra hb2
            obtain ⟨t, ht⟩ := bt2_true_shape rest (by simpa using hb2)
            exact hne2 t rfl ht
          simp [bt3, bt2_removeFencesL rest hb2]
        · simp [bt3, hc]
  | case4 => rfl

/-- Strings without a fence marker pass through the removal unchanged. -/
theorem removeFencesL_id (l : List Char) (h : hasFence l = false) :
    removeFencesL l = l := by
  induction l using removeFencesL.induct with
  | case1 rest ih => simp [hasFence, bt3, bt2, bt1, bq] at h
  | case2 rest hne ih => simp [hasFence, bt3, bt2, bt1, bq] at h
  | case3 c rest hne1 hne2 ih =>
      rw [hasFence, Bool.or_eq_false_iff] at h
      rw [removeFencesL_cons c rest h.1, ih h.2]
  | case4 => rfl

/-- Counterexample to C1 as stated: on the input
`` ```\n["```"]\n``` `` the claim predicts that only the outer fence pair
is stripped and the fence inside the JSON string value survives, i.e. a
result of `["```"]`; the code's global `re.sub` also deletes the inner
fence, producing `[""]`. -/
theorem C1_counterexample :
    parse_json_response "```\n[\"```\"]\n```" = .ok (.arr [.str ""])
      ∧ ("" : String) ≠ "```" :=
  ⟨rfl, by decide⟩

/-- **C1** (amended).  The fence-removal stage of the Response Parser
(app.py line 120) is global, not limited to one leading/trailing pair: no
fence marker (three consecutive backticks) survives anywhere in its
output, and a string containing no fence marker at all passes through
unchanged. -/
theorem C1_fence_removal_is_global :
    (∀ l : List Char, hasFence (removeFencesL l) = false)
      ∧ ∀ l : List Char, hasFence l = false → removeFencesL l = l :=
  ⟨hasFence_removeFencesL, removeFencesL_id⟩

/-- Witness for the amended C1 at concrete inputs. -/
theorem C1_witness :
    hasFence (removeFencesL "x``` ```json y".data) = false
      ∧ removeFencesL "plain text".data = "plain text".data :=
  ⟨C1_fence_removal_is_global.1 _, C1_fence_removal_is_global.2 _ (by decide)⟩

/-! ## Response Parser: decode failure and permissiveness (claims C9, C10) -/

/-- **C9.**  For every input that is not valid JSON after fence-stripping
and whitespace-stripping, `parse_json_response` returns the failure value,
reporting the decode error together with the raw (unstripped) input text;
nothing is raised past the `try`/`except`, and nothing is repaired or
retried — the reported messages and the failure value are the whole
effect. -/
theorem C9_decode_failure_reported (s : String)
    (h : loads (pyStrip (removeFencesL s.data)) = none) :
    parse_json_response s = .error ["JSON parse error", s] := by
  simp [parse_json_response, h]

/-- Witness for C9 at the spec's own example input. -/
theorem C9_witness :
    parse_json_response "not json" = .error ["JSON parse error", "not json"] :=
  C9_decode_failure_reported "not json" rfl

/-- **C10.**  `parse_json_response` performs no object/mapping check: any
input that decodes (after fence-stripping) to any JSON value — array,
number, string, boolean or null as much as an object — is returned as a
success. -/
theorem C10_any_json_value_accepted (s : String) (v : Json)
    (h : loads (pyStrip (removeFencesL s.data)) = some v) :
    parse_json_response s = .ok v := by
  simp [parse_json_response, h]

/-- Witness for C10 at an array, a number, a string, a boolean and null. -/
theorem C10_witness :
    parse_json_response "[1]" = .ok (.arr [.num 1 0])
      ∧ parse_json_response "5" = .ok (.num 5 0)
      ∧ parse_json_response "\"x\"" = .ok (.str "x")
      ∧ parse_json_response "true" = .ok (.bool true)
      ∧ parse_json_response "null" = .ok .null :=
  ⟨C10_any_json_value_accepted "[1]" (.arr [.num 1 0]) rfl,
   C10_any_json_value_accepted "5" (.num 5 0) rfl,
   C10_any_json_value_accepted "\"x\"" (.str "x") rfl,
   C10_any_json_value_accepted "true" (.bool true) rfl,
   C10_any_json_value_accepted "null" .null rfl⟩

/-! ## Extraction Client (claim C8) -/

/-- **C8.**  `query_gemini` returns the failure value `None` exactly when
the HTTP response is non-success or the success envelope is missing the
expected nested fields; a non-success response is reported with its status
code and body, a bad envelope with the underlying exception message.  The
embedding consumes exactly one response — there is no retry path. -/
theorem C8_failure_conditions (resp : HttpResponse) :
    ((query_gemini resp).1 = none
        ↔ resp.ok = false ∨ ∃ e, envelopeOf resp.text = .error e)
      ∧ (resp.ok = false →
          (query_gemini resp).2
            = ["Gemini API Error: " ++ toString resp.status_code, resp.text])
      ∧ ∀ e, resp.ok = true → envelopeOf resp.text = .error e →
          (query_gemini resp).2 = ["Parsing Gemini response failed: " ++ e] := by
  by_cases hok : resp.ok
  · cases hE : envelopeOf resp.text with
    | ok v =>
        refine ⟨?_, ?_, ?_⟩
        · simp [query_gemini, hok, hE]
        · intro hf; rw [hf] at hok; cases hok
        · intro e _ hE'
          exact absurd hE' (by simp)
    | error e =>
        refine ⟨?_, ?_, ?_⟩
        · simp [query_gemini, hok, hE]
        · intro hf; rw [hf] at hok; cases hok
        · intro e' _ hE'
          injection hE' with h
          subst h
          simp [query_gemini, hok, hE]
  · refine ⟨?_, ?_, ?_⟩
    · simp [query_gemini, hok]
    · intro _; simp [query_gemini, hok]
    · intro e hok' _; rw [hok'] at hok; cases hok rfl

/-- Witness for C8: a non-success response and a success response with an
empty-object envelope. -/
theorem C8_witness :
    (query_gemini ⟨false, 500, "oops"⟩).2 = ["Gemini API Error: 500", "oops"]
      ∧ (query_gemini ⟨true, 200, "\x7b\x7d"⟩).2
          = ["Parsing Gemini response failed: KeyError: candidates"] :=
  ⟨(C8_failure_conditions ⟨false, 500, "oops"⟩).2.1 rfl,
   (C8_failure_conditions ⟨true, 200, "\x7b\x7d"⟩).2.2 "KeyError: candidates" rfl rfl⟩

/-! ## Round trip on clean JSON (claim C7)

Step 1: the serialization of a mapping whose keys and values are free of
fence markers is itself free of fence markers, so the fence-removal pass
leaves it alone. -/

/-- No backtick anywhere in the list. -/
def noBT (l : List Char) : Bool := l.all (fun c => c ≠ bq)

theorem hasFence_cons_ne (c : Char) (l : List Char) (h : c ≠ bq) :
    hasFence (c :: l) = hasFence l := by
  simp [hasFence, bt3, h]

theorem bt2_append_of_bt2_false (a b : List Char) (ha : bt2 a = false) (hb : bt1 b = false) :
    bt2 (a ++ b) = false := by
  match a with
  | [] => exact bt2_false_of_bt1_false b hb
  | [x] =>
      simp [bt2, bt1] at ha ⊢
      intro hx
      simp [bt1] at hb
      simp [hb]
  | x :: y :: a' => simpa [bt2, bt1] using ha

theorem hasFence_append_of_bt1_false (b : List Char) (hb : hasFence b = false)
    (hb1 : bt1 b = false) :
    ∀ a : List Char, hasFence a = false → hasFence (a ++ b) = false := by
  intro a
  induction a with
  | nil => intro _; simpa using hb
  | cons c a' ih =>
      intro ha
      rw [hasFence, Bool.or_eq_false_iff] at ha
      rw [List.cons_append, hasFence, Bool.or_eq_false_iff]
      refine ⟨?_, ih ha.2⟩
      by_cases hc : c = bq
      · subst hc
        have ha2 : bt2 a' = false := by simpa [bt3] using ha.1
        simp [bt3, bt2_append_of_bt2_false a' b ha2 hb1]
      · simp [bt3, hc]

theorem hasFence_append_of_noBT (b : List Char) :
    ∀ a : List Char, noBT a = true → hasFence (a ++ b) = hasFence b := by
  intro a
  induction a with
  | nil => intro _; rfl
  | cons c a' ih =>
      intro ha
      simp only [noBT, List.all_cons, Bool.and_eq_true, decide_eq_true_eq] at ha
      rw [List.cons_append, hasFence_cons_ne c _ ha.1, ih ha.2]

theorem hexCharOf_ne_bq_fin : ∀ d : Fin 16, hexCharOf d.val ≠ bq := by decide

theorem hexCharOf_ne_bq (n : Nat) (h : n < 16) : hexCharOf n ≠ bq :=
  hexCharOf_ne_bq_fin ⟨n, h⟩

theorem noBT_escapeChar (c : Char) (h : c ≠ bq) : noBT (escapeChar c) = true := by
  unfold escapeChar
  by_cases h1 : c = '"'
  · subst h1; decide
  · by_cases h2 : c = '\\'
    · subst h2; decide
    · by_cases h3 : c.toNat < 32
      · rw [if_neg h1, if_neg h2, if_pos h3]
        simp only [noBT, List.all_eq_true, decide_eq_true_eq]
        intro x hx
        simp only [List.mem_cons, List.not_mem_nil, or_false] at hx
        rcases hx with rfl | rfl | rfl | rfl | rfl | rfl
        · decide
        · decide
        · decide
        · decide
        · exact hexCharOf_ne_bq _ (by omega)
        · exact hexCharOf_ne_bq _ (by omega)
      · rw [if_neg h1, if_neg h2, if_neg h3]
        simp [noBT, h]

theorem escapeChar_ne_nil (c : Char) : escapeChar c ≠ [] := by
  unfold escapeChar
  by_cases h1 : c = '"'
  · simp [h1]
  · by_cases h2 : c = '\\'
    · simp [h1, h2]
    · by_cases h3 : c.toNat < 32
      · simp [h1, h2, h3]
      · simp [h1, h2, h3]

/-- Escaping neither creates nor destroys fence markers, and preserves the
presence of one or two leading backticks. -/
theorem escStr_fence_profile (s : List Char) :
    hasFence (escStr s) = hasFence s
      ∧ bt2 (escStr s) = bt2 s ∧ bt1 (escStr s) = bt1 s := by
  induction s with
  | nil => exact ⟨rfl, rfl, rfl⟩
  | cons c r ih =>
      by_cases hc : c = bq
      · subst hc
        have hesc : escapeChar bq = [bq] := by decide
        rw [escStr, hesc]
        refine ⟨?_, ?_, ?_⟩
        · rw [List.singleton_append, hasFence, hasFence]
          have h3 : bt3 (bq :: escStr r) = bt2 (escStr r) := by simp [bt3]
          have h3' : bt3 (bq :: r) = bt2 r := by simp [bt3]
          rw [h3, h3', ih.1, ih.2.1]
        · rw [List.singleton_append]
          have h2 : bt2 (bq :: escStr r) = bt1 (escStr r) := by simp [bt2]
          have h2' : bt2 (bq :: r) = bt1 r := by simp [bt2]
          rw [h2, h2', ih.2.2]
        · rfl
      · rcases hchunk : escapeChar c with _ | ⟨d, chunk⟩
        · exact absurd hchunk (escapeChar_ne_nil c)
        · have hnb : noBT (escapeChar c) = true := noBT_escapeChar c hc
          rw [hchunk] at hnb
          simp only [noBT, List.all_cons, Bool.and_eq_true, decide_eq_true_eq] at hnb
          refine ⟨?_, ?_, ?_⟩
          · rw [escStr, hchunk, hasFence_append_of_noBT _ _ (by rw [← hchunk]; exact noBT_escapeChar c hc),
              ih.1, hasFence_cons_ne c r hc]
          · rw [escStr, hchunk, List.cons_append]
            have : bt2 (d :: (chunk ++ escStr r)) = false := by simp [bt2, hnb.1]
            rw [this]
            simp [bt2, hc]
          · rw [escStr, hchunk, List.cons_append]
            have : bt1 (d :: (chunk ++ escStr r)) = false := by simp [bt1, hnb.1]
            rw [this]
            simp [bt1, hc]

theorem hasFence_strLit (s : String) (h : hasFence s.data = false) :
    hasFence (strLit s) = false ∧ bt1 (strLit s) = false := by
  constructor
  · rw [strLit, hasFence_cons_ne _ _ (by decide)]
    refine hasFence_append_of_bt1_false ['"'] (by decide) (by decide) _ ?_
    rw [(escStr_fence_profile s.data).1, h]
  · simp [strLit, bt1]
    decide

/-- The shape of `serBody` on a cons, with the append fully
right-associated. -/
theorem serBody_cons (k v : String) (ms : List (String × String)) :
    serBody ((k, v) :: ms)
      = strLit k ++ (':' :: ' ' ::
          (strLit v ++ (match ms with
            | [] => ['}']
            | _ :: _ => ',' :: ' ' :: serBody ms))) := by
  rw [serBody.eq_def]
  simp [List.append_assoc]

theorem hasFence_serBody (m : List (String × String))
    (h : ∀ p ∈ m, hasFence p.1.data = false ∧ hasFence p.2.data = false) :
    hasFence (serBody m) = false := by
  induction m with
  | nil => rfl
  | cons p ms ih =>
      obtain ⟨k, v⟩ := p
      have hk := (h (k, v) (List.mem_cons_self _ _)).1
      have hv := (h (k, v) (List.mem_cons_self _ _)).2
      have hrest : hasFence (serBody ms) = false :=
        ih fun q hq => h q (List.mem_cons_of_mem _ hq)
      rw [serBody_cons]
      cases ms with
      | nil =>
          have hmid : hasFence (strLit v ++ ['}']) = false :=
            hasFence_append_of_bt1_false ['}'] (by decide) (by decide) _
              (hasFence_strLit v hv).1
          refine hasFence_append_of_bt1_false _ ?_ (by simp [bt1, bq]) _ (hasFence_strLit k hk).1
          rw [hasFence_cons_ne _ _ (by decide), hasFence_cons_ne _ _ (by decide)]
          exact hmid
      | cons q ms' =>
          have htail : hasFence (',' :: ' ' :: serBody (q :: ms')) = false := by
            rw [hasFence_cons_ne _ _ (by decide), hasFence_cons_ne _ _ (by decide)]
            exact hrest
          have hmid : hasFence (strLit v ++ (',' :: ' ' :: serBody (q :: ms'))) = false :=
            hasFence_append_of_bt1_false _ htail (by simp [bt1, bq]) _
              (hasFence_strLit v hv).1
          refine hasFence_append_of_bt1_false _ ?_ (by simp [bt1, bq]) _ (hasFence_strLit k hk).1
          rw [hasFence_cons_ne _ _ (by decide), hasFence_cons_ne _ _ (by decide)]
          exact hmid

/-! Step 2: the parser recovers exactly what the serializer wrote.  First
the string literals, then the members, then the whole object. -/

theorem hexVal_hexCharOf_fin : ∀ d : Fin 16, hexVal (hexCharOf d.val) = some d.val := by
  decide

theorem hexVal_hexCharOf (d : Nat) (hd : d < 16) :
    hexVal (hexCharOf d) = some d :=
  hexVal_hexCharOf_fin ⟨d, hd⟩

theorem parseStringBody_cons_other (fuel : Nat) (c : Char) (rest : List Char)
    (h1 : c ≠ '"') (h2 : c ≠ '\\') :
    parseStringBody (fuel + 1) (c :: rest)
      = if c.toNat < 32 then none
        else (parseStringBody fuel rest).map (fun p => (c :: p.1, p.2)) := by
  cases rest with
  | nil => rw [parseStringBody, if_neg h1, if_neg h2]
  | cons e r => rw [parseStringBody, if_neg h1, if_neg h2]

theorem parseStringBody_escStr (s : List Char) :
    ∀ (f : Nat) (rest : List Char),
      parseStringBody (s.length + f + 1) (escStr s ++ '"' :: rest) = some (s, rest) := by
  induction s with
  | nil =>
      intro f rest
      exact rfl
  | cons c cs ih =>
      intro f rest
      rw [escStr, List.append_assoc]
      simp only [List.length_cons]
      have hstep : cs.length + 1 + f + 1 = (cs.length + f + 1) + 1 := by omega
      by_cases h1 : c = '"'
      · subst h1
        have hesc : escapeChar '"' = ['\\', '"'] := by decide
        rw [hesc, List.cons_append, List.cons_append, List.nil_append, hstep, parseStringBody,
          if_neg (by decide : ¬('\\' : Char) = '"'), if_pos (rfl : ('\\' : Char) = '\\')]
        show (match simpleEscape '"' with
          | some d => (parseStringBody (cs.length + f + 1) (escStr cs ++ '"' :: rest)).map
              (fun p : List Char × List Char => (d :: p.1, p.2))
          | none => none) = some ('"' :: cs, rest)
        rw [show simpleEscape '"' = some '"' from rfl, ih f rest]
        rfl
      · by_cases h2 : c = '\\'
        · subst h2
          have hesc : escapeChar '\\' = ['\\', '\\'] := by decide
          rw [hesc, List.cons_append, List.cons_append, List.nil_append, hstep, parseStringBody,
            if_neg (by decide : ¬('\\' : Char) = '"'), if_pos (rfl : ('\\' : Char) = '\\')]
          show (match simpleEscape '\\' with
            | some d => (parseStringBody (cs.length + f + 1) (escStr cs ++ '"' :: rest)).map
                (fun p : List Char × List Char => (d :: p.1, p.2))
            | none => none) = some ('\\' :: cs, rest)
          rw [show simpleEscape '\\' = some '\\' from rfl, ih f rest]
          rfl
        · by_cases h3 : c.toNat < 32
          · have hesc : escapeChar c
                = ['\\', 'u', '0', '0', hexCharOf (c.toNat / 16),
                   hexCharOf (c.toNat % 16)] := by
              rw [escapeChar, if_neg h1, if_neg h2, if_pos h3]
            have hhex : parseHex4 '0' '0' (hexCharOf (c.toNat / 16))
                (hexCharOf (c.toNat % 16)) = some c.toNat := by
              rw [parseHex4, hexVal_hexCharOf (c.toNat / 16) (by omega),
                hexVal_hexCharOf (c.toNat % 16) (by omega)]
              show some (0 * 4096 + 0 * 256 + c.toNat / 16 * 16 + c.toNat % 16)
                = some c.toNat
              congr 1
              omega
            have huni : parseUnicodeEscape ('0' :: '0' :: hexCharOf (c.toNat / 16)
                :: hexCharOf (c.toNat % 16) :: (escStr cs ++ '"' :: rest))
                = some (Char.ofNat c.toNat, escStr cs ++ '"' :: rest) := by
              show (match parseHex4 '0' '0' (hexCharOf (c.toNat / 16))
                  (hexCharOf (c.toNat % 16)) with
                | some n =>
                  if n < 0xD800 ∨ 0xDFFF < n then
                    some (Char.ofNat n, escStr cs ++ '"' :: rest)
                  else if n < 0xDC00 then
                    parseLowSurrogate n (escStr cs ++ '"' :: rest)
                  else none
                | none => none) = _
              rw [hhex]
              show (if c.toNat < 0xD800 ∨ 0xDFFF < c.toNat then
                  some (Char.ofNat c.toNat, escStr cs ++ '"' :: rest)
                else _) = _
              rw [if_pos (Or.inl (by omega : c.toNat < 0xD800))]
            rw [hesc]
            simp only [List.cons_append, List.nil_append]
            rw [hstep, parseStringBody,
              if_neg (by decide : ¬('\\' : Char) = '"'),
              if_pos (rfl : ('\\' : Char) = '\\')]
            show (if ('u' : Char) = 'u' then
                match parseUnicodeEscape ('0' :: '0' :: hexCharOf (c.toNat / 16)
                    :: hexCharOf (c.toNat % 16) :: (escStr cs ++ '"' :: rest)) with
                | some dr => (parseStringBody (cs.length + f + 1) dr.2).map
                    (fun p : List Char × List Char => (dr.1 :: p.1, p.2))
                | none => none
              else _) = some (c :: cs, rest)
            rw [if_pos rfl, huni]
            show (parseStringBody (cs.length + f + 1) (escStr cs ++ '"' :: rest)).map
                (fun p : List Char × List Char => (Char.ofNat c.toNat :: p.1, p.2))
              = some (c :: cs, rest)
            rw [ih f rest, Char.ofNat_toNat]
            rfl
          · have hesc : escapeChar c = [c] := by
              rw [escapeChar, if_neg h1, if_neg h2, if_neg h3]
            rw [hesc, List.singleton_append, hstep,
              parseStringBody_cons_other _ c _ h1 h2, if_neg h3, ih f rest]
            rfl

theorem escStr_length_ge (s : List Char) : s.length ≤ (escStr s).length := by
  induction s with
  | nil => simp [escStr]
  | cons c r ih =>
      rw [escStr, List.length_append, List.length_cons]
      have h1 : 1 ≤ (escapeChar c).length :=
        List.length_pos.mpr (escapeChar_ne_nil c)
      omega

/-- `parseStringBody` with the fuel its call sites supply (input length
plus one) parses a serialized string body back to the original. -/
theorem parseStringBody_escStr_len (s : List Char) (r : List Char) :
    parseStringBody ((escStr s ++ '"' :: r).length + 1) (escStr s ++ '"' :: r)
      = some (s, r) := by
  have hge : s.length ≤ (escStr s ++ '"' :: r).length := by
    rw [List.length_append]
    have := escStr_length_ge s
    omega
  have h := parseStringBody_escStr s ((escStr s ++ '"' :: r).length - s.length) r
  rw [show s.length + ((escStr s ++ '"' :: r).length - s.length) + 1
      = (escStr s ++ '"' :: r).length + 1 from by omega] at h
  exact h

theorem strLit_append (s : String) (rest : List Char) :
    strLit s ++ rest = '"' :: (escStr s.data ++ '"' :: rest) := by
  simp [strLit]

/-- The `value` parser on a serialized string literal. -/
theorem value_strLit (f : Nat) (s : String) (rest : List Char) :
    (parsersAt (f + 1)).value (strLit s ++ rest) = some (.str s, rest) := by
  rw [strLit_append]
  show (match parseStringBody ((escStr s.data ++ '"' :: rest).length + 1)
      (escStr s.data ++ '"' :: rest) with
    | some p => some (Json.str (String.mk p.1), p.2)
    | none => none) = some (.str s, rest)
  rw [parseStringBody_escStr_len]

theorem skipWs_cons_not (c : Char) (l : List Char) (h : isJsonWs c = false) :
    skipWs (c :: l) = c :: l := by
  simp [skipWs, List.dropWhile, h]

theorem skipWs_space (l : List Char) : skipWs (' ' :: l) = skipWs l := by
  simp [skipWs, List.dropWhile]
  rfl

theorem skipWs_colon (l : List Char) : skipWs (':' :: l) = ':' :: l :=
  skipWs_cons_not ':' l (by decide)

theorem skipWs_comma (l : List Char) : skipWs (',' :: l) = ',' :: l :=
  skipWs_cons_not ',' l (by decide)

theorem skipWs_rbrace (l : List Char) : skipWs ('}' :: l) = '}' :: l :=
  skipWs_cons_not '}' l (by decide)

theorem skipWs_strLit (v : String) (l : List Char) :
    skipWs (strLit v ++ l) = strLit v ++ l := by
  rw [strLit_append]
  exact skipWs_cons_not _ _ (by decide)

theorem skipWs_serBody (ms : List (String × String)) (l : List Char) :
    skipWs (serBody ms ++ l) = serBody ms ++ l := by
  cases ms with
  | nil => exact skipWs_cons_not _ _ (by decide)
  | cons q ms' =>
      obtain ⟨k, v⟩ := q
      rw [serBody_cons, List.append_assoc, strLit_append]
      exact skipWs_cons_not _ _ (by decide)

/-- One member-parsing step of `members`, with the key's string literal
already consumed symbolically. -/
theorem members_step (N : Nat) (k : String) (r1 : List Char) :
    (parsersAt (N + 1)).members ('"' :: (escStr k.data ++ '"' :: r1))
      = (match skipWs r1 with
         | ':' :: r3 =>
           match (parsersAt N).value (skipWs r3) with
           | some vp =>
             match skipWs vp.2 with
             | ',' :: r6 =>
                 match (parsersAt N).members (skipWs r6) with
                 | some mp => some ((k, vp.1) :: mp.1, mp.2)
                 | none => none
             | '}' :: r6 => some ([(k, vp.1)], r6)
             | _ => none
           | none => none
         | _ => none) := by
  show (match parseStringBody ((escStr k.data ++ '"' :: r1).length + 1)
      (escStr k.data ++ '"' :: r1) with
    | some kp =>
      match skipWs kp.2 with
      | ':' :: r3 =>
        match (parsersAt N).value (skipWs r3) with
        | some vp =>
          match skipWs vp.2 with
          | ',' :: r6 =>
              match (parsersAt N).members (skipWs r6) with
              | some mp => some ((String.mk kp.1, vp.1) :: mp.1, mp.2)
              | none => none
          | '}' :: r6 => some ([(String.mk kp.1, vp.1)], r6)
          | _ => none
        | none => none
      | _ => none
    | none => none) = _
  rw [parseStringBody_escStr_len]

/-- The `members` parser recovers a serialized nonempty mapping. -/
theorem members_serBody (ms : List (String × String)) :
    ∀ (f : Nat) (rest : List Char), ms ≠ [] →
      (parsersAt (ms.length + f + 1)).members (serBody ms ++ rest)
        = some (ms.map fun p => (p.1, Json.str p.2), rest) := by
  induction ms with
  | nil => intro f rest h; exact absurd rfl h
  | cons p ms' ih =>
      intro f rest _
      obtain ⟨k, v⟩ := p
      cases ms' with
      | nil =>
          have hser : serBody [(k, v)] ++ rest
              = '"' :: (escStr k.data ++ '"' :: (':' :: ' ' :: (strLit v ++ '}' :: rest))) := by
            rw [serBody_cons, List.append_assoc, strLit_append]
            simp [List.append_assoc]
          have hlevel : ([(k, v)] : List (String × String)).length + f + 1 = (f + 1) + 1 := by
            simp
            omega
          have hval : (parsersAt (f + 1)).value (strLit v ++ '}' :: rest)
              = some (.str v, '}' :: rest) := value_strLit f v ('}' :: rest)
          rw [hlevel, hser, members_step (f + 1) k, skipWs_colon]
          simp only [skipWs_space, skipWs_strLit, hval, skipWs_rbrace, List.map_cons,
            List.map_nil]
      | cons q ms'' =>
          have hser : serBody ((k, v) :: q :: ms'') ++ rest
              = '"' :: (escStr k.data ++ '"'
                  :: (':' :: ' ' :: (strLit v ++ ',' :: ' ' :: (serBody (q :: ms'') ++ rest)))) := by
            rw [serBody_cons, List.append_assoc, strLit_append]
            simp [List.append_assoc]
          have hlevel : ((k, v) :: q :: ms'' : List (String × String)).length + f + 1
              = (((q :: ms'').length + f + 1)) + 1 := by
            simp only [List.length_cons]
            omega
          have hval : (parsersAt ((q :: ms'').length + f + 1)).value
                (strLit v ++ ',' :: ' ' :: (serBody (q :: ms'') ++ rest))
              = some (.str v, ',' :: ' ' :: (serBody (q :: ms'') ++ rest)) :=
            value_strLit ((q :: ms'').length + f) v _
          have hmem : (parsersAt ((q :: ms'').length + f + 1)).members
                (serBody (q :: ms'') ++ rest)
              = some ((q :: ms'').map fun p => (p.1, Json.str p.2), rest) :=
            ih f rest (by simp)
          rw [hlevel, hser, members_step ((q :: ms'').length + f + 1) k, skipWs_colon]
          simp only [skipWs_space, skipWs_strLit, hval, skipWs_comma, skipWs_serBody, hmem,
            List.map_cons]

theorem skipWs_lbrace (l : List Char) : skipWs ('{' :: l) = '{' :: l :=
  skipWs_cons_not '{' l (by decide)

theorem skipWs_serBody_nil (ms : List (String × String)) :
    skipWs (serBody ms) = serBody ms := by
  have h := skipWs_serBody ms []
  simpa using h

theorem serBody_length_ge (ms : List (String × String)) :
    ms.length + 1 ≤ (serBody ms).length := by
  induction ms with
  | nil => simp [serBody]
  | cons p ms' ih =>
      obtain ⟨k, v⟩ := p
      rw [serBody_cons]
      cases ms' with
      | nil =>
          simp only [List.length_append, List.length_cons, List.length_nil, strLit,
            List.length_cons]
          omega
      | cons q ms'' =>
          simp only [List.length_append, List.length_cons, strLit] at ih ⊢
          omega

theorem dictInsert_not_mem (p : String × Json) :
    ∀ acc : List (String × Json), p.1 ∉ acc.map Prod.fst → dictInsert acc p = acc ++ [p] := by
  obtain ⟨k, v⟩ := p
  intro acc
  induction acc with
  | nil => intro _; rfl
  | cons q rest ih =>
      obtain ⟨k', v'⟩ := q
      intro h
      simp only [List.map_cons, List.mem_cons] at h
      push_neg at h
      rw [dictInsert, if_neg (by simpa using (Ne.symm h.1)), ih h.2]
      rfl

theorem foldl_dictInsert (ps : List (String × Json)) :
    ∀ acc : List (String × Json),
      (acc.map Prod.fst ++ ps.map Prod.fst).Nodup →
      ps.foldl dictInsert acc = acc ++ ps := by
  induction ps with
  | nil => intro acc _; simp
  | cons p ps' ih =>
      intro acc h
      rw [List.foldl_cons]
      have hnot : p.1 ∉ acc.map Prod.fst := by
        rw [List.nodup_append] at h
        intro hmem
        exact h.2.2 hmem (by simp)
      rw [dictInsert_not_mem p acc hnot]
      have h' : ((acc ++ [p]).map Prod.fst ++ ps'.map Prod.fst).Nodup := by
        simp only [List.map_append, List.map_cons, List.map_nil] at h ⊢
        simpa [List.append_assoc] using h
      rw [ih (acc ++ [p]) h', List.append_assoc]
      simp

/-- CPython dict building is the identity on a member list with distinct
keys. -/
theorem dictBuild_nodup (ps : List (String × Json)) (h : (ps.map Prod.fst).Nodup) :
    dictBuild ps = ps := by
  have h2 := foldl_dictInsert ps [] (by simpa using h)
  simpa [dictBuild] using h2

/-- `json.loads` inverts the serializer on any mapping with distinct
keys. -/
theorem loads_serializeStringMap (m : List (String × String))
    (hnodup : (m.map Prod.fst).Nodup) :
    loads (serializeStringMap m).data
      = some (.obj (m.map fun p => (p.1, Json.str p.2))) := by
  cases m with
  | nil => rfl
  | cons p ms =>
      obtain ⟨k, v⟩ := p
      have hBhead : ∃ t, serBody ((k, v) :: ms) = '"' :: t := by
        rw [serBody_cons, strLit_append]
        exact ⟨_, rfl⟩
      obtain ⟨t, hB⟩ := hBhead
      have hval : (parsersAt (('{' :: serBody ((k, v) :: ms)).length + 1)).value
            ('{' :: serBody ((k, v) :: ms))
          = (parsersAt ('{' :: serBody ((k, v) :: ms)).length).objRest
              (serBody ((k, v) :: ms)) := rfl
      have hlen : ('{' :: serBody ((k, v) :: ms)).length
          = (serBody ((k, v) :: ms)).length + 1 := by simp
      have ho : (parsersAt ((serBody ((k, v) :: ms)).length + 1)).objRest
            (serBody ((k, v) :: ms))
          = match (parsersAt (serBody ((k, v) :: ms)).length).members
                (serBody ((k, v) :: ms)) with
            | some pr => some (Json.obj (dictBuild pr.1), pr.2)
            | none => none := by
        show (match skipWs (serBody ((k, v) :: ms)) with
          | '}' :: r => some (Json.obj [], r)
          | l' =>
              match (parsersAt (serBody ((k, v) :: ms)).length).members l' with
              | some pr => some (Json.obj (dictBuild pr.1), pr.2)
              | none => none) = _
        rw [skipWs_serBody_nil, hB]
        rfl
      have hm : (parsersAt (serBody ((k, v) :: ms)).length).members
            (serBody ((k, v) :: ms))
          = some (((k, v) :: ms).map fun p => (p.1, Json.str p.2), []) := by
        have hge := serBody_length_ge ((k, v) :: ms)
        have hf : (serBody ((k, v) :: ms)).length
            = ((k, v) :: ms : List (String × String)).length
                + ((serBody ((k, v) :: ms)).length
                    - ((k, v) :: ms : List (String × String)).length - 1) + 1 := by
          omega
        rw [hf]
        have h2 := members_serBody ((k, v) :: ms)
          ((serBody ((k, v) :: ms)).length
            - ((k, v) :: ms : List (String × String)).length - 1) [] (by simp)
        rw [List.append_nil] at h2
        exact h2
      have hdict : dictBuild (((k, v) :: ms).map fun p => (p.1, Json.str p.2))
          = ((k, v) :: ms).map fun p => (p.1, Json.str p.2) := by
        refine dictBuild_nodup _ ?_
        have hkeys : ((((k, v) :: ms).map fun p => (p.1, Json.str p.2)).map Prod.fst)
            = ((k, v) :: ms).map Prod.fst := by
          simp [List.map_map, Function.comp]
        rw [hkeys]
        exact hnodup
      show loads ('{' :: serBody ((k, v) :: ms)) = _
      rw [loads, skipWs_lbrace]
      simp only [parseValue] at hval
      rw [show parseValue (('{' :: serBody ((k, v) :: ms)).length + 1)
            ('{' :: serBody ((k, v) :: ms))
          = (parsersAt ('{' :: serBody ((k, v) :: ms)).length).objRest
              (serBody ((k, v) :: ms)) from hval]
      rw [hlen, ho, hm]
      simp only [List.map_cons] at hdict
      simp [hdict, skipWs]

theorem serBody_ends (m : List (String × String)) :
    ∃ core, serBody m = core ++ ['}'] := by
  induction m with
  | nil => exact ⟨[], rfl⟩
  | cons p ms ih =>
      obtain ⟨k, v⟩ := p
      cases ms with
      | nil =>
          refine ⟨strLit k ++ ':' :: ' ' :: strLit v, ?_⟩
          rw [serBody_cons]
          simp [List.append_assoc]
      | cons q ms' =>
          obtain ⟨core, hcore⟩ := ih
          refine ⟨strLit k ++ ':' :: ' ' :: (strLit v ++ ',' :: ' ' :: core), ?_⟩
          rw [serBody_cons, hcore]
          simp [List.append_assoc]

theorem pyStrip_id_brace (core : List Char) :
    pyStrip ('{' :: (core ++ ['}'])) = '{' :: (core ++ ['}']) := by
  simp [pyStrip, List.dropWhile_cons, isPyWs, List.reverse_append]

/-- Counterexample to C7 as stated: serializing the mapping
`a ↦ "```"` and parsing it back yields `a ↦ ""` — the fence marker inside
the JSON string value is destroyed by the fence-stripping pass. -/
theorem C7_counterexample :
    parse_json_response (serializeStringMap [("a", "```")])
        = .ok (.obj [("a", .str "")])
      ∧ ("" : String) ≠ "```" :=
  ⟨rfl, by decide⟩

/-- **C7** (amended).  The Response Parser is idempotent on already-clean
JSON for every mapping from string field names to string values whose keys
and values contain no code-fence marker (three consecutive backticks):
parsing the JSON serialization of such a mapping returns exactly that
mapping. -/
theorem C7_roundtrip_clean_json (m : List (String × String))
    (hnodup : (m.map Prod.fst).Nodup)
    (hfence : ∀ p ∈ m, hasFence p.1.data = false ∧ hasFence p.2.data = false) :
    parse_json_response (serializeStringMap m)
      = .ok (.obj (m.map fun p => (p.1, Json.str p.2))) := by
  have hnf : hasFence ('{' :: serBody m) = false := by
    rw [hasFence_cons_ne _ _ (by decide)]
    exact hasFence_serBody m hfence
  have hrf : removeFencesL ('{' :: serBody m) = '{' :: serBody m :=
    removeFencesL_id _ hnf
  obtain ⟨core, hcore⟩ := serBody_ends m
  have hps : pyStrip ('{' :: serBody m) = '{' :: serBody m := by
    rw [hcore]
    exact pyStrip_id_brace core
  show (match loads (pyStrip (removeFencesL (serializeStringMap m).data)) with
    | some v => Except.ok v
    | none => Except.error ["JSON parse error", serializeStringMap m]) = _
  have hl : loads ('{' :: serBody m)
      = some (.obj (m.map fun p => (p.1, Json.str p.2))) :=
    loads_serializeStringMap m hnodup
  rw [show (serializeStringMap m).data = '{' :: serBody m from rfl, hrf, hps, hl]

/-- Witness for the amended C7 at a concrete two-field mapping. -/
theorem C7_witness :
    parse_json_response (serializeStringMap [("rating", "Hold"), ("comments", "")])
      = .ok (.obj [("rating", .str "Hold"), ("comments", .str "")]) :=
  C7_roundtrip_clean_json [("rating", "Hold"), ("comments", "")] (by decide) (by decide)

end PdfExtractor
